import Mathlib

/-!
Verification of the email drip-campaign sequencer in
src/projects/recruitment-apk-automation/email_automation_service.py.

The sequencer (`process_email_sequence`) iterates over the fixed 8-entry
`EMAIL_SCHEDULE`. For each entry it sleeps until the scheduled time, reads
the external status field (stopping when it is "Gepauzeerd" or "Voltooid"),
reads the last-email-sent field (skipping the step when it is at least the
step's number), and otherwise calls `send_sequence_email`, which attempts
the SMTP delivery and on success writes the "Email {n}" marker back to the
store (plus "Voltooid" after the final email).

The embedding makes the external world explicit:
 * every store read and every send outcome is supplied by an oracle
   (`StepEnv`), one per loop iteration, so that arbitrary interleavings of
   external writes, read failures and send failures are covered;
 * the run's observable behaviour is its trace of `Event`s (sleeps, SMTP
   attempts, successful deliveries, store writes);
 * for the claims that assume a read-after-write-consistent store, a second
   runner (`runStore`) threads a concrete `Store` value through the same
   loop body, with reads taken from the store and writes applied to it.

Python string manipulation used by `get_last_email_sent`
(`"Email" in s`, `s.replace("Email ", "")`, `int(...)`) is modelled by
executable functions over `List Char` (`pyContains`, `pyReplace`,
`pyToInt`), and the f-string `f"Email {email_num}"` by `pyFormatEmail`.
-/

namespace EmailAutomation

/-- One entry of `EMAIL_SCHEDULE` (email_automation_service.py lines 55-64). -/
structure ScheduleEntry where
  email_num : Nat
  day : Nat
  template_id : Nat
deriving DecidableEq, Repr

/-- The fixed 8-email schedule (lines 55-64 of the source). -/
def EMAIL_SCHEDULE : List ScheduleEntry :=
  [⟨1, 1, 63⟩, ⟨2, 3, 64⟩, ⟨3, 5, 65⟩, ⟨4, 8, 66⟩,
   ⟨5, 11, 67⟩, ⟨6, 14, 68⟩, ⟨7, 21, 69⟩, ⟨8, 30, 70⟩]

/-- The statuses on which the sequence stops (line 470: `status in ["Gepauzeerd", "Voltooid"]`). -/
def stop_statuses : List String := ["Gepauzeerd", "Voltooid"]

/-- Observable events of one sequencer run: sleeping, an SMTP send attempt,
a successful SMTP delivery, and the two Pipedrive field writes
(`laatste_email` and `email_sequence_status`). -/
inductive Event where
  | wait (seconds : Int)
  | sendAttempt (email_num : Nat)
  | sent (email_num : Nat)
  | writeLastEmail (email_num : Nat)
  | writeStatus (status : String)
deriving DecidableEq, Repr

/-- The `time.sleep(wait_seconds)` call guarded by `if wait_seconds > 0` (lines 464-466). -/
def waitEvents (wait_seconds : Int) : List Event :=
  if 0 < wait_seconds then [Event.wait wait_seconds] else []

/-- `send_sequence_email` (lines 382-439), reduced to its observable effect.
`ok` is the outcome of the SMTP delivery attempt (`False` also covers the
early returns for a missing SMTP password or template, and an exception
raised while formatting or sending).  On success the function logs, writes
`laatste_email = "Email {email_num}"`, writes `email_sequence_status =
"Voltooid"` when `email_num == 8`, and returns `True`; on failure it
performs no store write and returns `False`. -/
def send_sequence_email (ok : Bool) (email_num : Nat) : List Event × Bool :=
  if ok then
    ([Event.sendAttempt email_num, Event.sent email_num,
      Event.writeLastEmail email_num] ++
      (if email_num = 8 then [Event.writeStatus "Voltooid"] else []), true)
  else
    ([Event.sendAttempt email_num], false)

/-- The external world as seen by loop iteration `j`: the wall clock read by
`datetime.now()`, the value returned by `get_sequence_status`, the value
returned by `get_last_email_sent`, and whether the SMTP delivery would
succeed at this iteration. -/
structure StepEnv where
  nowTime : Int
  status : String
  last_sent : Int
  send_ok : Bool

/-- The loop body of `process_email_sequence` (lines 456-486), iterating the
remaining schedule entries starting at position `j`.  Per entry: compute the
send date (`sent_date + day` days, in seconds), sleep if it is in the
future, stop when the status read is "Gepauzeerd" or "Voltooid", skip when
the last-email read is at least this entry's number, otherwise call
`send_sequence_email` and continue regardless of its outcome. -/
def runFrom (env : Nat → StepEnv) (sent_date : Int) : Nat → List ScheduleEntry → List Event
  | _, [] => []
  | j, e :: rest =>
    let s := env j
    let w := waitEvents (sent_date + 86400 * (e.day : Int) - s.nowTime)
    if s.status ∈ stop_statuses then w
    else if (e.email_num : Int) ≤ s.last_sent then
      w ++ runFrom env sent_date (j + 1) rest
    else
      w ++ (send_sequence_email s.send_ok e.email_num).1 ++ runFrom env sent_date (j + 1) rest

/-- Error taxonomy of a run, as named by the specification (§7).  The code
can in fact never produce it: the `try/except` at lines 450-454 swallows the
parse failure. -/
inductive SeqError where
  | invalidSchedule
deriving DecidableEq, Repr

/-- `process_email_sequence` (lines 442-487).  `parsed_start` is the result
of `datetime.strptime(apk_sent_date, "%Y-%m-%d")`: `some d` when the input
string is a valid timestamp with start instant `d` (in seconds), `none`
when it is malformed and `strptime` raises.  `now0` is `datetime.now()` at
entry.  The code catches the parse failure and substitutes `now0`
(lines 450-454), then runs the schedule loop; no exception escapes, so the
result is always `Except.ok` of the trace. -/
def process_email_sequence (parsed_start : Option Int) (now0 : Int)
    (env : Nat → StepEnv) : Except SeqError (List Event) :=
  let sent_date := match parsed_start with
    | some d => d
    | none => now0
  Except.ok (runFrom env sent_date 0 EMAIL_SCHEDULE)

/-- The event trace of `process_email_sequence` (which always succeeds). -/
def processEvents (parsed_start : Option Int) (now0 : Int)
    (env : Nat → StepEnv) : List Event :=
  runFrom env (match parsed_start with | some d => d | none => now0) 0 EMAIL_SCHEDULE

/-! ### Trace projections -/

/-- The email number of a send attempt event. -/
def attemptNumOf : Event → Option Nat
  | .sendAttempt n => some n
  | _ => none

/-- The email number of a successful-delivery event. -/
def sentNumOf : Event → Option Nat
  | .sent n => some n
  | _ => none

/-- The email number of a `laatste_email` store write. -/
def lastWriteNumOf : Event → Option Nat
  | .writeLastEmail n => some n
  | _ => none

/-- The status string of an `email_sequence_status` store write. -/
def statusOf : Event → Option String
  | .writeStatus s => some s
  | _ => none

/-- The email number attached to a step-specific event (attempt, delivery,
or `laatste_email` write); `none` for sleeps and status writes. -/
def eventNum : Event → Option Nat
  | .sendAttempt n => some n
  | .sent n => some n
  | .writeLastEmail n => some n
  | _ => none

/-- Numbers of all SMTP send attempts, in order. -/
def sendAttemptNums (l : List Event) : List Nat := l.filterMap attemptNumOf

/-- Numbers of all successful deliveries, in order. -/
def sentNums (l : List Event) : List Nat := l.filterMap sentNumOf

/-- Values written to `laatste_email`, in order. -/
def lastEmailWrites (l : List Event) : List Nat := l.filterMap lastWriteNumOf

/-- Values written to `email_sequence_status`, in order. -/
def statusWrites (l : List Event) : List String := l.filterMap statusOf

/-! ### Python string operations used by `get_last_email_sent`

`get_last_email_sent` (lines 369-379) reads the raw `laatste_email` string
and recovers a number from it with `"Email" in str(last_email)`,
`str(last_email).replace("Email ", "")` and `int(...)`.  These are modelled
as executable functions over `List Char`. -/

/-- Python substring test `pat in s` (left-to-right scan). -/
def pyContains (pat : List Char) : List Char → Bool
  | [] => pat.isEmpty
  | c :: t => pat.isPrefixOf (c :: t) || pyContains pat t

/-- Fuel-driven worker for `pyReplace`; the fuel bounds the number of scan
positions, which never exceeds the length of the subject string. -/
def pyReplaceFuel (pat rep : List Char) : Nat → List Char → List Char
  | 0, s => s
  | fuel + 1, s =>
    if !pat.isEmpty && pat.isPrefixOf s then
      rep ++ pyReplaceFuel pat rep fuel (s.drop pat.length)
    else
      match s with
      | [] => []
      | c :: t => c :: pyReplaceFuel pat rep fuel t

/-- Python `s.replace(pat, rep)`: replace every non-overlapping occurrence,
scanning left to right. -/
def pyReplace (pat rep s : List Char) : List Char :=
  pyReplaceFuel pat rep s.length s

/-- Numeric value of a nonempty all-digit character list. -/
def digitsVal (l : List Char) : Option Nat :=
  if !l.isEmpty && l.all Char.isDigit then
    some (l.foldl (fun acc c => acc * 10 + (c.toNat - 48)) 0)
  else
    none

/-- Python `int(s)`: strip surrounding spaces, allow an optional sign,
require a nonempty digit string; `none` models the raised `ValueError`. -/
def pyToInt (l : List Char) : Option Int :=
  let core := (l.dropWhile (· = ' ')).reverse.dropWhile (· = ' ') |>.reverse
  match core with
  | '-' :: rest => (digitsVal rest).map (fun n => -(n : Int))
  | '+' :: rest => (digitsVal rest).map (fun n => (n : Int))
  | rest => (digitsVal rest).map (fun n => (n : Int))

/-- The parse performed by `get_last_email_sent` (lines 373-379) on the raw
`laatste_email` field value: if the value is truthy (nonempty) and contains
"Email", strip every occurrence of "Email " and convert with `int`,
returning 0 when any of this fails. -/
def parse_last_email (s : String) : Int :=
  if !s.data.isEmpty && pyContains "Email".data s.data then
    (pyToInt (pyReplace "Email ".data [] s.data)).getD 0
  else
    0

/-- Decimal digits of `n`, via fuel-driven division (fuel `n + 1` always
suffices since the argument strictly decreases). -/
def natToChars : Nat → Nat → List Char
  | 0, _ => []
  | fuel + 1, n =>
    if n < 10 then [Nat.digitChar n]
    else natToChars fuel (n / 10) ++ [Nat.digitChar (n % 10)]

/-- The f-string `f"Email {email_num}"` written to `laatste_email`
(line 429). -/
def pyFormatEmail (email_num : Nat) : String :=
  ⟨"Email ".data ++ natToChars (email_num + 1) email_num⟩

/-! ### Store reads (`get_sequence_status`, `get_last_email_sent`) -/

/-- The two custom deal fields the sequencer reads, as returned by a
successful Pipedrive fetch; `none` models an absent key (so that
`deal.get(key, default)` yields the default). -/
structure Deal where
  email_sequence_status : Option String
  laatste_email : Option String
deriving DecidableEq, Repr

/-- `get_sequence_status` (lines 361-366): returns the status field of the
fetched deal, or the empty string when the fetch fails (`get_deal_info`
returned `None`) or the key is absent. -/
def get_sequence_status (deal? : Option Deal) : String :=
  match deal? with
  | some d => d.email_sequence_status.getD ""
  | none => ""

/-- `get_last_email_sent` (lines 369-379): parses the `laatste_email` field
of the fetched deal, returning 0 when the fetch fails, the key is absent,
or the value does not parse. -/
def get_last_email_sent (deal? : Option Deal) : Int :=
  match deal? with
  | some d => parse_last_email (d.laatste_email.getD "")
  | none => 0

/-! ### The read-after-write-consistent store model

For the claims that assume the status store is read-after-write consistent
and that writes succeed, the same loop body is run against a concrete
store: reads return the current field values and each write updates them. -/

/-- The per-instance mutable state held by the external store: the raw
values of `email_sequence_status` and `laatste_email`. -/
structure Store where
  status : String
  laatste_email : String
deriving DecidableEq, Repr

/-- Effect of one event on a consistent store: `laatste_email` writes store
the formatted "Email {n}" string (line 429), status writes store the status
(line 433); other events leave the store unchanged. -/
def applyEvent (st : Store) : Event → Store
  | .writeLastEmail n => { st with laatste_email := pyFormatEmail n }
  | .writeStatus s => { st with status := s }
  | _ => st

/-- The loop body of `process_email_sequence` run against a read-after-write
consistent store: identical branch structure to `runFrom`, but the status
read is `st.status`, the last-email read is `parse_last_email` of the
current `laatste_email` value, and the writes of `send_sequence_email` are
applied to the store.  `sendOK j` is the SMTP outcome at iteration `j`,
`nowT j` the wall clock. -/
def runStore (sendOK : Nat → Bool) (nowT : Nat → Int) (sent_date : Int) :
    Nat → Store → List ScheduleEntry → List Event × Store
  | _, st, [] => ([], st)
  | j, st, e :: rest =>
    let w := waitEvents (sent_date + 86400 * (e.day : Int) - nowT j)
    if st.status ∈ stop_statuses then (w, st)
    else if (e.email_num : Int) ≤ parse_last_email st.laatste_email then
      let r := runStore sendOK nowT sent_date (j + 1) st rest
      (w ++ r.1, r.2)
    else
      let p := send_sequence_email (sendOK j) e.email_num
      let st' := p.1.foldl applyEvent st
      let r := runStore sendOK nowT sent_date (j + 1) st' rest
      (w ++ p.1 ++ r.1, r.2)

/-- `k` sequential runs of the sequencer over the full schedule for the same
instance, threading the consistent store from run to run; run `i` uses send
outcomes `sendOK i` and clock `nowT i`.  Returns the concatenated trace and
the final store. -/
def runsFrom (sendOK : Nat → Nat → Bool) (nowT : Nat → Nat → Int) (sent_date : Int) :
    Nat → Store → List Event × Store
  | 0, st => ([], st)
  | k + 1, st =>
    let r := runStore (sendOK k) (nowT k) sent_date 0 st EMAIL_SCHEDULE
    let r2 := runsFrom sendOK nowT sent_date k r.2
    (r.1 ++ r2.1, r2.2)

/-! ### The SMTP connection parameters -/

/-- Parameters of the SMTP connection opened for each delivery. -/
structure SMTPConn where
  host : String
  port : Nat
  timeout : Option Int
deriving DecidableEq, Repr

/-- The connection opened in `send_sequence_email` (line 421):
`smtplib.SMTP(SMTP_HOST, SMTP_PORT)`.  The `timeout` keyword of
`smtplib.SMTP` is not passed, so no deadline is set on the socket. -/
def smtp_connection (host : String) (port : Nat) : SMTPConn :=
  { host := host, port := port, timeout := none }

/-! ### Schedule-shape predicates used by the structural lemmas -/

/-- The entries starting at position `j` carry email numbers
`j+1, j+2, ...` (holds for `EMAIL_SCHEDULE` from position 0). -/
def numsFromb : Nat → List ScheduleEntry → Bool
  | _, [] => true
  | j, e :: rest => (e.email_num == j + 1) && numsFromb (j + 1) rest

/-- Every entry's formatted `laatste_email` marker parses back to its own
number (holds for `EMAIL_SCHEDULE`). -/
def roundtripb (sched : List ScheduleEntry) : Bool :=
  sched.all fun e => parse_last_email (pyFormatEmail e.email_num) == (e.email_num : Int)

/-- The oracle of a run in which every status read returns a non-stopping
value `st i`, every last-email read returns the number of this run's own
prior (successful) writes, and every SMTP delivery succeeds. -/
def activeConsistentEnv (st : Nat → String) (nowT : Nat → Int) : Nat → StepEnv :=
  fun i => ⟨nowT i, st i, (i : Int), true⟩

/-! ## Structural lemmas -/

theorem eventNum_of_mem_waitEvents {ev : Event} {w : Int}
    (h : ev ∈ waitEvents w) : eventNum ev = none := by
  unfold waitEvents at h
  split at h
  · simp at h
    subst h
    rfl
  · simp at h

theorem statusOf_of_mem_waitEvents {ev : Event} {w : Int}
    (h : ev ∈ waitEvents w) : statusOf ev = none := by
  unfold waitEvents at h
  split at h
  · simp at h
    subst h
    rfl
  · simp at h

theorem sendAttemptNums_waitEvents (w : Int) : sendAttemptNums (waitEvents w) = [] := by
  unfold waitEvents sendAttemptNums
  split <;> simp [attemptNumOf]

theorem sentNums_waitEvents (w : Int) : sentNums (waitEvents w) = [] := by
  unfold waitEvents sentNums
  split <;> simp [sentNumOf]

theorem lastEmailWrites_waitEvents (w : Int) : lastEmailWrites (waitEvents w) = [] := by
  unfold waitEvents lastEmailWrites
  split <;> simp [lastWriteNumOf]

theorem statusWrites_waitEvents (w : Int) : statusWrites (waitEvents w) = [] := by
  unfold waitEvents statusWrites
  split <;> simp [statusOf]

theorem sendAttemptNums_append (l₁ l₂ : List Event) :
    sendAttemptNums (l₁ ++ l₂) = sendAttemptNums l₁ ++ sendAttemptNums l₂ :=
  List.filterMap_append l₁ l₂ attemptNumOf

theorem sentNums_append (l₁ l₂ : List Event) :
    sentNums (l₁ ++ l₂) = sentNums l₁ ++ sentNums l₂ :=
  List.filterMap_append l₁ l₂ sentNumOf

theorem lastEmailWrites_append (l₁ l₂ : List Event) :
    lastEmailWrites (l₁ ++ l₂) = lastEmailWrites l₁ ++ lastEmailWrites l₂ :=
  List.filterMap_append l₁ l₂ lastWriteNumOf

theorem statusWrites_append (l₁ l₂ : List Event) :
    statusWrites (l₁ ++ l₂) = statusWrites l₁ ++ statusWrites l₂ :=
  List.filterMap_append l₁ l₂ statusOf

theorem filterMap_attemptNumOf_waitEvents (w : Int) :
    List.filterMap attemptNumOf (waitEvents w) = [] :=
  sendAttemptNums_waitEvents w

theorem filterMap_sentNumOf_waitEvents (w : Int) :
    List.filterMap sentNumOf (waitEvents w) = [] :=
  sentNums_waitEvents w

theorem filterMap_lastWriteNumOf_waitEvents (w : Int) :
    List.filterMap lastWriteNumOf (waitEvents w) = [] :=
  lastEmailWrites_waitEvents w

theorem filterMap_statusOf_waitEvents (w : Int) :
    List.filterMap statusOf (waitEvents w) = [] :=
  statusWrites_waitEvents w

theorem mem_of_eventNum {ev : Event} {l : List Event} (hev : ev ∈ l) {n : Nat}
    (hn : eventNum ev = some n) :
    ev = Event.sendAttempt n ∨ ev = Event.sent n ∨ ev = Event.writeLastEmail n := by
  cases ev <;> simp [eventNum] at hn <;> simp [hn]

/-- Events emitted by `send_sequence_email` carry its own email number or
are status writes. -/
theorem eventNum_of_mem_send {ev : Event} {ok : Bool} {m : Nat}
    (h : ev ∈ (send_sequence_email ok m).1) :
    eventNum ev = none ∨ eventNum ev = some m := by
  unfold send_sequence_email at h
  cases ok with
  | false =>
    simp at h
    subst h
    right
    rfl
  | true =>
    simp at h
    rcases h with h | h | h | h
    · subst h; right; rfl
    · subst h; right; rfl
    · subst h; right; rfl
    · rcases h with ⟨-, h⟩
      subst h
      left
      rfl

theorem mem_statusWrites {s : String} {l : List Event} :
    s ∈ statusWrites l ↔ Event.writeStatus s ∈ l := by
  unfold statusWrites
  rw [List.mem_filterMap]
  constructor
  · rintro ⟨ev, hmem, hev⟩
    cases ev <;> simp [statusOf] at hev
    subst hev
    exact hmem
  · intro h
    exact ⟨Event.writeStatus s, h, rfl⟩

theorem mem_sentNums {n : Nat} {l : List Event} :
    n ∈ sentNums l ↔ Event.sent n ∈ l := by
  unfold sentNums
  rw [List.mem_filterMap]
  constructor
  · rintro ⟨ev, hmem, hev⟩
    cases ev <;> simp [sentNumOf] at hev
    subst hev
    exact hmem
  · intro h
    exact ⟨Event.sent n, h, rfl⟩

theorem mem_sendAttemptNums {n : Nat} {l : List Event} :
    n ∈ sendAttemptNums l ↔ Event.sendAttempt n ∈ l := by
  unfold sendAttemptNums
  rw [List.mem_filterMap]
  constructor
  · rintro ⟨ev, hmem, hev⟩
    cases ev <;> simp [attemptNumOf] at hev
    subst hev
    exact hmem
  · intro h
    exact ⟨Event.sendAttempt n, h, rfl⟩

theorem mem_lastEmailWrites {n : Nat} {l : List Event} :
    n ∈ lastEmailWrites l ↔ Event.writeLastEmail n ∈ l := by
  unfold lastEmailWrites
  rw [List.mem_filterMap]
  constructor
  · rintro ⟨ev, hmem, hev⟩
    cases ev <;> simp [lastWriteNumOf] at hev
    subst hev
    exact hmem
  · intro h
    exact ⟨Event.writeLastEmail n, h, rfl⟩

/-- If the status read at iteration `i` is a stopping status, then every
numbered event of the run from any position `j ≤ i` concerns a step of
number at most `i`: the loop returns at iteration `i` at the latest. -/
theorem numbered_le_of_stop (env : Nat → StepEnv) (sent_date : Int) :
    ∀ (sched : List ScheduleEntry) (j i : Nat),
      numsFromb j sched = true → j ≤ i → (env i).status ∈ stop_statuses →
      ∀ ev ∈ runFrom env sent_date j sched, ∀ n, eventNum ev = some n → n ≤ i := by
  intro sched
  induction sched with
  | nil =>
    intro j i _ _ _ ev hev
    simp [runFrom] at hev
  | cons e rest ih =>
    intro j i hnums hji hstop ev hev n hn
    unfold numsFromb at hnums
    rw [Bool.and_eq_true, beq_iff_eq] at hnums
    obtain ⟨he, hrest⟩ := hnums
    unfold runFrom at hev
    by_cases hst : (env j).status ∈ stop_statuses
    · rw [if_pos hst] at hev
      rw [eventNum_of_mem_waitEvents hev] at hn
      exact absurd hn (by simp)
    · have hji' : j ≠ i := by
        intro h
        exact hst (h ▸ hstop)
      have hj1 : j + 1 ≤ i := Nat.lt_of_le_of_ne hji hji'
      rw [if_neg hst] at hev
      split at hev
      · rcases List.mem_append.mp hev with hw | hr
        · rw [eventNum_of_mem_waitEvents hw] at hn
          exact absurd hn (by simp)
        · exact ih (j + 1) i hrest hj1 hstop ev hr n hn
      · rcases List.mem_append.mp hev with hw | hr
        · rcases List.mem_append.mp hw with hw' | hs
          · rw [eventNum_of_mem_waitEvents hw'] at hn
            exact absurd hn (by simp)
          · rcases eventNum_of_mem_send hs with h0 | hm
            · rw [h0] at hn
              exact absurd hn (by simp)
            · rw [hm] at hn
              have : n = e.email_num := by
                injection hn.symm
              rw [this, he]
              exact hj1
        · exact ih (j + 1) i hrest hj1 hstop ev hr n hn

/-- If the last-email read at iteration `i` is at least `i + 1` (step `i`'s
email number), then no numbered event of the run concerns step number
`i + 1`: that step is skipped (or never reached). -/
theorem numbered_ne_of_skip (env : Nat → StepEnv) (sent_date : Int) (i : Nat)
    (hlast : (i : Int) + 1 ≤ (env i).last_sent) :
    ∀ (sched : List ScheduleEntry) (j : Nat),
      numsFromb j sched = true →
      ∀ ev ∈ runFrom env sent_date j sched, eventNum ev ≠ some (i + 1) := by
  intro sched
  induction sched with
  | nil =>
    intro j _ ev hev
    simp [runFrom] at hev
  | cons e rest ih =>
    intro j hnums ev hev hn
    unfold numsFromb at hnums
    rw [Bool.and_eq_true, beq_iff_eq] at hnums
    obtain ⟨he, hrest⟩ := hnums
    unfold runFrom at hev
    by_cases hst : (env j).status ∈ stop_statuses
    · rw [if_pos hst] at hev
      rw [eventNum_of_mem_waitEvents hev] at hn
      exact absurd hn (by simp)
    · rw [if_neg hst] at hev
      split at hev
      · rcases List.mem_append.mp hev with hw | hr
        · rw [eventNum_of_mem_waitEvents hw] at hn
          exact absurd hn (by simp)
        · exact ih (j + 1) hrest ev hr hn
      · rename_i hguard
        rcases List.mem_append.mp hev with hw | hr
        · rcases List.mem_append.mp hw with hw' | hs
          · rw [eventNum_of_mem_waitEvents hw'] at hn
            exact absurd hn (by simp)
          · rcases eventNum_of_mem_send hs with h0 | hm
            · rw [h0] at hn
              exact absurd hn (by simp)
            · rw [hm] at hn
              have hne : e.email_num = i + 1 := by
                injection hn
              have hji : j = i := by
                rw [hne] at he
                omega
              apply hguard
              rw [hne, hji]
              push_cast
              exact hlast
        · exact ih (j + 1) hrest ev hr hn

/-- The status writes of any run are exactly one "Voltooid" per successful
delivery of email number 8. -/
theorem statusWrites_eq_sent8 (env : Nat → StepEnv) (sent_date : Int) :
    ∀ (sched : List ScheduleEntry) (j : Nat),
      statusWrites (runFrom env sent_date j sched) =
        ((sentNums (runFrom env sent_date j sched)).filter fun n => n == 8).map
          fun _ => "Voltooid" := by
  intro sched
  induction sched with
  | nil =>
    intro j
    simp [runFrom, statusWrites, sentNums]
  | cons e rest ih =>
    intro j
    unfold runFrom
    by_cases hst : (env j).status ∈ stop_statuses
    · rw [if_pos hst]
      rw [statusWrites_waitEvents, sentNums_waitEvents]
      simp
    · rw [if_neg hst]
      split
      · rw [statusWrites_append, sentNums_append,
          statusWrites_waitEvents, sentNums_waitEvents]
        simpa using ih (j + 1)
      · rw [statusWrites_append, sentNums_append,
          statusWrites_append, sentNums_append,
          statusWrites_waitEvents, sentNums_waitEvents]
        cases hok : (env j).send_ok with
        | false =>
          simp only [send_sequence_email, hok, if_neg Bool.false_ne_true]
          simp only [statusWrites, sentNums, List.filterMap, statusOf, sentNumOf]
          simpa using ih (j + 1)
        | true =>
          simp only [send_sequence_email, hok, if_pos rfl]
          by_cases h8 : e.email_num = 8
          · rw [if_pos h8, h8]
            simp only [statusWrites, sentNums, List.filterMap_append]
            simp [statusOf, sentNumOf, List.filterMap]
            simpa [statusWrites, sentNums] using ih (j + 1)
          · rw [if_neg h8]
            simp only [statusWrites, sentNums, List.filterMap_append]
            simp [statusOf, sentNumOf, List.filterMap, h8]
            simpa [statusWrites, sentNums] using ih (j + 1)

/-! ## Lemmas about the consistent-store runner -/

theorem sentNums_send (ok : Bool) (n : Nat) :
    sentNums (send_sequence_email ok n).1 = if ok then [n] else [] := by
  cases ok with
  | false => simp [send_sequence_email, sentNums, sentNumOf, List.filterMap]
  | true =>
    by_cases h8 : n = 8 <;>
      simp [send_sequence_email, h8, sentNums, sentNumOf,
        List.filterMap_append, List.filterMap]

theorem lastEmailWrites_send (ok : Bool) (n : Nat) :
    lastEmailWrites (send_sequence_email ok n).1 = if ok then [n] else [] := by
  cases ok with
  | false => simp [send_sequence_email, lastEmailWrites, lastWriteNumOf, List.filterMap]
  | true =>
    by_cases h8 : n = 8 <;>
      simp [send_sequence_email, h8, lastEmailWrites, lastWriteNumOf,
        List.filterMap_append, List.filterMap]

theorem laatste_email_foldl_send (ok : Bool) (n : Nat) (st : Store) :
    ((send_sequence_email ok n).1.foldl applyEvent st).laatste_email =
      if ok then pyFormatEmail n else st.laatste_email := by
  cases ok with
  | false => simp [send_sequence_email, applyEvent]
  | true =>
    by_cases h8 : n = 8 <;>
      simp [send_sequence_email, h8, applyEvent]

/-- In the consistent-store model the successful deliveries and the
`laatste_email` writes coincide, number for number. -/
theorem lastEmailWrites_eq_sentNums_runStore (sendOK : Nat → Bool) (nowT : Nat → Int)
    (sent_date : Int) :
    ∀ (sched : List ScheduleEntry) (j : Nat) (st : Store),
      lastEmailWrites (runStore sendOK nowT sent_date j st sched).1 =
        sentNums (runStore sendOK nowT sent_date j st sched).1 := by
  intro sched
  induction sched with
  | nil =>
    intro j st
    simp [runStore, lastEmailWrites, sentNums]
  | cons e rest ih =>
    intro j st
    unfold runStore
    by_cases hst : st.status ∈ stop_statuses
    · rw [if_pos hst]
      simp [lastEmailWrites_waitEvents, sentNums_waitEvents]
    · rw [if_neg hst]
      split
      · simp only [lastEmailWrites_append, sentNums_append,
          lastEmailWrites_waitEvents, sentNums_waitEvents]
        simpa using ih (j + 1) st
      · simp only [lastEmailWrites_append, sentNums_append,
          lastEmailWrites_waitEvents, sentNums_waitEvents,
          lastEmailWrites_send, sentNums_send]
        rw [ih (j + 1)]

/-- Progress bound for one consistent run: the recorded `laatste_email`
value never decreases, and every delivered step number is strictly above
the value recorded at the start and at most the value recorded at the
end. -/
theorem runStore_bounds (sendOK : Nat → Bool) (nowT : Nat → Int) (sent_date : Int) :
    ∀ (sched : List ScheduleEntry) (j : Nat) (st : Store), roundtripb sched = true →
      parse_last_email st.laatste_email ≤
        parse_last_email (runStore sendOK nowT sent_date j st sched).2.laatste_email ∧
      ∀ n ∈ sentNums (runStore sendOK nowT sent_date j st sched).1,
        parse_last_email st.laatste_email < (n : Int) ∧
        (n : Int) ≤ parse_last_email (runStore sendOK nowT sent_date j st sched).2.laatste_email := by
  intro sched
  induction sched with
  | nil =>
    intro j st _
    simp [runStore, sentNums]
  | cons e rest ih =>
    intro j st hrt
    unfold roundtripb at hrt
    rw [List.all_cons, Bool.and_eq_true, beq_iff_eq] at hrt
    obtain ⟨hre, hrrest⟩ := hrt
    unfold runStore
    by_cases hst : st.status ∈ stop_statuses
    · rw [if_pos hst]
      simp [sentNums_waitEvents]
    · rw [if_neg hst]
      split
      · have h := ih (j + 1) st hrrest
        simp only [sentNums_append, sentNums_waitEvents, List.nil_append]
        exact h
      · rename_i hguard
        rw [Int.not_le] at hguard
        cases hok : sendOK j with
        | false =>
          have h := ih (j + 1) ((send_sequence_email false e.email_num).1.foldl applyEvent st)
            hrrest
          rw [laatste_email_foldl_send] at h
          simp only [Bool.false_eq_true, if_false] at h
          simp only [sentNums_append, sentNums_waitEvents, List.nil_append,
            sentNums_send, Bool.false_eq_true, if_false]
          exact h
        | true =>
          have h := ih (j + 1) ((send_sequence_email true e.email_num).1.foldl applyEvent st)
            hrrest
          rw [laatste_email_foldl_send, if_pos rfl, hre] at h
          simp only [sentNums_append, sentNums_waitEvents, List.nil_append,
            sentNums_send, if_pos rfl]
          constructor
          · exact le_of_lt (lt_of_lt_of_le hguard h.1)
          · intro n hn
            rcases List.mem_cons.mp hn with hn | hn
            · subst hn
              exact ⟨hguard, h.1⟩
            · have h2 := h.2 n hn
              exact ⟨lt_trans hguard h2.1, h2.2⟩

/-- Within one consistent run the delivered step numbers are strictly
increasing. -/
theorem runStore_pairwise (sendOK : Nat → Bool) (nowT : Nat → Int) (sent_date : Int) :
    ∀ (sched : List ScheduleEntry) (j : Nat) (st : Store), roundtripb sched = true →
      (sentNums (runStore sendOK nowT sent_date j st sched).1).Pairwise (fun a b => a < b) := by
  intro sched
  induction sched with
  | nil =>
    intro j st _
    simp [runStore, sentNums]
  | cons e rest ih =>
    intro j st hrt
    unfold roundtripb at hrt
    rw [List.all_cons, Bool.and_eq_true, beq_iff_eq] at hrt
    obtain ⟨hre, hrrest⟩ := hrt
    unfold runStore
    by_cases hst : st.status ∈ stop_statuses
    · rw [if_pos hst]
      simp [sentNums_waitEvents]
    · rw [if_neg hst]
      split
      · simp only [sentNums_append, sentNums_waitEvents, List.nil_append]
        exact ih (j + 1) st hrrest
      · rename_i hguard
        rw [Int.not_le] at hguard
        cases hok : sendOK j with
        | false =>
          simp only [sentNums_append, sentNums_waitEvents, List.nil_append,
            sentNums_send, Bool.false_eq_true, if_false]
          exact ih (j + 1) _ hrrest
        | true =>
          simp only [sentNums_append, sentNums_waitEvents, List.nil_append,
            sentNums_send, eq_self_iff_true, if_true, List.singleton_append]
          rw [List.pairwise_cons]
          constructor
          · intro m hm
            have hb := (runStore_bounds sendOK nowT sent_date rest (j + 1)
              ((send_sequence_email true e.email_num).1.foldl applyEvent st)
              hrrest).2 m hm
            have hlt : parse_last_email
                (((send_sequence_email true e.email_num).1.foldl applyEvent st).laatste_email)
                < (m : Int) := hb.1
            rw [laatste_email_foldl_send, if_pos rfl, hre] at hlt
            exact_mod_cast hlt
          · exact ih (j + 1) _ hrrest

/-- Progress bound across `k` sequential consistent runs: the recorded
value never decreases, and every delivered step number is strictly above
the value recorded before the first run and at most the final recorded
value. -/
theorem runsFrom_bounds (sendOK : Nat → Nat → Bool) (nowT : Nat → Nat → Int)
    (sent_date : Int) :
    ∀ (k : Nat) (st : Store),
      parse_last_email st.laatste_email ≤
        parse_last_email (runsFrom sendOK nowT sent_date k st).2.laatste_email ∧
      ∀ n ∈ sentNums (runsFrom sendOK nowT sent_date k st).1,
        parse_last_email st.laatste_email < (n : Int) ∧
        (n : Int) ≤ parse_last_email (runsFrom sendOK nowT sent_date k st).2.laatste_email := by
  intro k
  induction k with
  | zero =>
    intro st
    simp [runsFrom, sentNums]
  | succ k ih =>
    intro st
    have hrt : roundtripb EMAIL_SCHEDULE = true := by decide
    have h1 := runStore_bounds (sendOK k) (nowT k) sent_date EMAIL_SCHEDULE 0 st hrt
    have h2 := ih (runStore (sendOK k) (nowT k) sent_date 0 st EMAIL_SCHEDULE).2
    unfold runsFrom
    simp only [sentNums_append]
    constructor
    · exact le_trans h1.1 h2.1
    · intro n hn
      rcases List.mem_append.mp hn with hn | hn
      · have hb := h1.2 n hn
        exact ⟨hb.1, le_trans hb.2 h2.1⟩
      · have hb := h2.2 n hn
        exact ⟨lt_of_le_of_lt h1.1 hb.1, hb.2⟩

/-- Across any number of sequential consistent runs the delivered step
numbers are strictly increasing in trace order. -/
theorem runsFrom_pairwise (sendOK : Nat → Nat → Bool) (nowT : Nat → Nat → Int)
    (sent_date : Int) :
    ∀ (k : Nat) (st : Store),
      (sentNums (runsFrom sendOK nowT sent_date k st).1).Pairwise (fun a b => a < b) := by
  intro k
  induction k with
  | zero =>
    intro st
    simp [runsFrom, sentNums]
  | succ k ih =>
    intro st
    have hrt : roundtripb EMAIL_SCHEDULE = true := by decide
    unfold runsFrom
    simp only [sentNums_append]
    rw [List.pairwise_append]
    refine ⟨runStore_pairwise (sendOK k) (nowT k) sent_date EMAIL_SCHEDULE 0 st hrt, ih _, ?_⟩
    intro a ha b hb
    have h1 := (runStore_bounds (sendOK k) (nowT k) sent_date EMAIL_SCHEDULE 0 st hrt).2 a ha
    have h2 := (runsFrom_bounds sendOK nowT sent_date k
      (runStore (sendOK k) (nowT k) sent_date 0 st EMAIL_SCHEDULE).2).2 b hb
    have : (a : Int) < (b : Int) := lt_of_le_of_lt h1.2 h2.1
    exact_mod_cast this

/-- The `laatste_email` writes across sequential consistent runs coincide
with the successful deliveries. -/
theorem lastEmailWrites_eq_sentNums_runsFrom (sendOK : Nat → Nat → Bool)
    (nowT : Nat → Nat → Int) (sent_date : Int) :
    ∀ (k : Nat) (st : Store),
      lastEmailWrites (runsFrom sendOK nowT sent_date k st).1 =
        sentNums (runsFrom sendOK nowT sent_date k st).1 := by
  intro k
  induction k with
  | zero =>
    intro st
    simp [runsFrom, lastEmailWrites, sentNums]
  | succ k ih =>
    intro st
    unfold runsFrom
    simp only [lastEmailWrites_append, sentNums_append,
      lastEmailWrites_eq_sentNums_runStore, ih]

/-! ## Concrete oracles used by witnesses and counterexamples -/

/-- An oracle whose reads all return the failed-read defaults (empty status,
zero last email), whose sends all succeed, and whose clock is past every
scheduled date. -/
def defaultReadsEnv : Nat → StepEnv := fun _ => ⟨10000000, "", 0, true⟩

/-- An oracle whose status read at iteration 3 returns "Gepauzeerd" and is
otherwise all-active with successful sends. -/
def pausedAt3Env : Nat → StepEnv :=
  fun i => if i = 3 then ⟨10000000, "Gepauzeerd", 0, true⟩ else ⟨10000000, "", 0, true⟩

/-- An oracle whose last-email reads all return 2 (steps 1 and 2 already
recorded as sent). -/
def alreadySent2Env : Nat → StepEnv := fun _ => ⟨10000000, "", 2, true⟩

/-- An oracle whose SMTP sends all fail. -/
def sendFailEnv : Nat → StepEnv := fun _ => ⟨10000000, "", 0, false⟩

/-! ## The claims -/

/-- C1: in a run over the 8-step schedule in which every status read
returns a non-stopping (active) value, every last-email read reflects the
run's own prior writes, and every send succeeds, exactly 8 sends are
attempted (numbers 1..8 in order), the `laatste_email` writes are
1..8 in order — so the final recorded value is step 8's index — and the
single status write is "Voltooid" (Completed). -/
theorem c1_full_run (st : Nat → String) (nowT : Nat → Int)
    (parsed_start : Option Int) (now0 : Int)
    (hactive : ∀ i, st i ∉ stop_statuses) :
    sendAttemptNums (processEvents parsed_start now0 (activeConsistentEnv st nowT)) =
      [1, 2, 3, 4, 5, 6, 7, 8] ∧
    lastEmailWrites (processEvents parsed_start now0 (activeConsistentEnv st nowT)) =
      [1, 2, 3, 4, 5, 6, 7, 8] ∧
    statusWrites (processEvents parsed_start now0 (activeConsistentEnv st nowT)) =
      ["Voltooid"] := by
  have h0 := hactive 0
  have h1 := hactive 1
  have h2 := hactive 2
  have h3 := hactive 3
  have h4 := hactive 4
  have h5 := hactive 5
  have h6 := hactive 6
  have h7 := hactive 7
  refine ⟨?_, ?_, ?_⟩ <;>
    simp [processEvents, EMAIL_SCHEDULE, runFrom, activeConsistentEnv,
      send_sequence_email, h0, h1, h2, h3, h4, h5, h6, h7,
      sendAttemptNums_append, sentNums_append, lastEmailWrites_append, statusWrites_append,
      sendAttemptNums_waitEvents, sentNums_waitEvents, lastEmailWrites_waitEvents,
      statusWrites_waitEvents, filterMap_attemptNumOf_waitEvents,
      filterMap_sentNumOf_waitEvents, filterMap_lastWriteNumOf_waitEvents,
      filterMap_statusOf_waitEvents, List.filterMap_append,
      sendAttemptNums, sentNums, lastEmailWrites, statusWrites,
      attemptNumOf, sentNumOf, lastWriteNumOf, statusOf, List.filterMap]

/-- C1 witness: concrete all-active run. -/
theorem c1_full_run_witness :
    ((fun _ : Nat => "Actief") 0 ∉ stop_statuses) ∧
    sendAttemptNums (processEvents none 0
        (activeConsistentEnv (fun _ => "Actief") (fun _ => 10000000))) =
      [1, 2, 3, 4, 5, 6, 7, 8] :=
  ⟨by decide,
   (c1_full_run (fun _ => "Actief") (fun _ => 10000000) none 0
     (fun _ => by simp [stop_statuses])).1⟩

/-- C2: if the status read at step `i`'s check (position `i`, email number
`i + 1`) returns "Gepauzeerd" or "Voltooid", then no send attempt, no
delivery and no `laatste_email` write occurs for step `i` or any later step
(any email number `n ≥ i + 1`); moreover the loop returns immediately at
any iteration whose status read is a stopping status, emitting at most the
sleep event. -/
theorem c2_stop (parsed_start : Option Int) (now0 : Int) (env : Nat → StepEnv)
    (i n : Nat) (hi : i < 8) (hstop : (env i).status ∈ stop_statuses)
    (hn : i + 1 ≤ n) :
    Event.sendAttempt n ∉ processEvents parsed_start now0 env ∧
    Event.sent n ∉ processEvents parsed_start now0 env ∧
    Event.writeLastEmail n ∉ processEvents parsed_start now0 env ∧
    ∀ (sent_date : Int) (j : Nat) (e : ScheduleEntry) (rest : List ScheduleEntry),
      (env j).status ∈ stop_statuses →
      runFrom env sent_date j (e :: rest) =
        waitEvents (sent_date + 86400 * (e.day : Int) - (env j).nowTime) := by
  refine ⟨?_, ?_, ?_, ?_⟩
  · intro hmem
    unfold processEvents at hmem
    have h := numbered_le_of_stop env _ EMAIL_SCHEDULE 0 i (by decide) (Nat.zero_le i)
      hstop _ hmem n rfl
    omega
  · intro hmem
    unfold processEvents at hmem
    have h := numbered_le_of_stop env _ EMAIL_SCHEDULE 0 i (by decide) (Nat.zero_le i)
      hstop _ hmem n rfl
    omega
  · intro hmem
    unfold processEvents at hmem
    have h := numbered_le_of_stop env _ EMAIL_SCHEDULE 0 i (by decide) (Nat.zero_le i)
      hstop _ hmem n rfl
    omega
  · intro sent_date j e rest hj
    simp only [runFrom]
    rw [if_pos hj]

/-- C2 witness: status "Gepauzeerd" at step 3's check, step number 5 is
never attempted. -/
theorem c2_stop_witness :
    (3 < 8 ∧ (pausedAt3Env 3).status ∈ stop_statuses ∧ 3 + 1 ≤ 5) ∧
    Event.sendAttempt 5 ∉ processEvents none 0 pausedAt3Env :=
  ⟨by decide, (c2_stop none 0 pausedAt3Env 3 5 (by decide) (by decide) (by decide)).1⟩

/-- C3: if the last-email read at step `i`'s check (position `i`, email
number `i + 1`) is at least `i + 1`, then step `i` is neither attempted nor
delivered nor recorded by the run; moreover at any iteration whose status
check passes and whose last-email read is at least the entry's number, the
loop continues directly with the next entry, emitting no event beyond the
sleep.  Consequently a re-run against an unchanged store never sends a step
whose index is at most the recorded `last_step_sent` read at its check. -/
theorem c3_idempotency_guard (parsed_start : Option Int) (now0 : Int)
    (env : Nat → StepEnv) (i : Nat) (hi : i < 8)
    (hlast : (i : Int) + 1 ≤ (env i).last_sent) :
    Event.sendAttempt (i + 1) ∉ processEvents parsed_start now0 env ∧
    Event.sent (i + 1) ∉ processEvents parsed_start now0 env ∧
    Event.writeLastEmail (i + 1) ∉ processEvents parsed_start now0 env ∧
    ∀ (sent_date : Int) (j : Nat) (e : ScheduleEntry) (rest : List ScheduleEntry),
      (env j).status ∉ stop_statuses → (e.email_num : Int) ≤ (env j).last_sent →
      runFrom env sent_date j (e :: rest) =
        waitEvents (sent_date + 86400 * (e.day : Int) - (env j).nowTime) ++
          runFrom env sent_date (j + 1) rest := by
  refine ⟨?_, ?_, ?_, ?_⟩
  · intro hmem
    unfold processEvents at hmem
    exact numbered_ne_of_skip env _ i hlast EMAIL_SCHEDULE 0 (by decide) _ hmem rfl
  · intro hmem
    unfold processEvents at hmem
    exact numbered_ne_of_skip env _ i hlast EMAIL_SCHEDULE 0 (by decide) _ hmem rfl
  · intro hmem
    unfold processEvents at hmem
    exact numbered_ne_of_skip env _ i hlast EMAIL_SCHEDULE 0 (by decide) _ hmem rfl
  · intro sent_date j e rest hj hguard
    simp only [runFrom]
    rw [if_neg hj, if_pos hguard]

/-- C3 witness: last-email read 2 at step 1's check, step number 2 is never
attempted. -/
theorem c3_idempotency_guard_witness :
    (1 < 8 ∧ ((1 : Nat) : Int) + 1 ≤ (alreadySent2Env 1).last_sent) ∧
    Event.sendAttempt 2 ∉ processEvents none 0 alreadySent2Env :=
  ⟨by decide, (c3_idempotency_guard none 0 alreadySent2Env 1 (by decide) (by decide)).1⟩

/-- C4 counterexample: with a malformed `start_time` (the `strptime` result
is `none`) the run does not fail: it returns `Except.ok` — no
`InvalidScheduleError` — and performs sends (a side effect), here step 1's
attempt. -/
theorem c4_counterexample :
    process_email_sequence none 0 defaultReadsEnv =
      Except.ok (processEvents none 0 defaultReadsEnv) ∧
    Event.sendAttempt 1 ∈ processEvents none 0 defaultReadsEnv := by
  refine ⟨rfl, ?_⟩
  decide

/-- C4 (amended): for a malformed `start_time` the run does not fail fast;
it silently substitutes the current time as the sequence start date and
proceeds to run the schedule loop normally, with whatever sends and store
writes that entails. -/
theorem c4_fallback_to_now (now0 : Int) (env : Nat → StepEnv) :
    process_email_sequence none now0 env =
      Except.ok (runFrom env now0 0 EMAIL_SCHEDULE) := rfl

/-- C5: when the send of a step fails, `send_sequence_email` performs no
store write (so `last_step_sent` is not updated for that step) and returns
`False`; the loop does not abort but continues with the next entry; and no
failure is ever propagated to a caller — the run always returns
`Except.ok`. -/
theorem c5_send_failure (parsed_start : Option Int) (now0 : Int)
    (env : Nat → StepEnv) (sent_date : Int) (j : Nat) (e : ScheduleEntry)
    (rest : List ScheduleEntry)
    (hfail : (env j).send_ok = false)
    (hst : (env j).status ∉ stop_statuses)
    (hguard : ¬((e.email_num : Int) ≤ (env j).last_sent)) :
    send_sequence_email false e.email_num = ([Event.sendAttempt e.email_num], false) ∧
    runFrom env sent_date j (e :: rest) =
      waitEvents (sent_date + 86400 * (e.day : Int) - (env j).nowTime) ++
        [Event.sendAttempt e.email_num] ++ runFrom env sent_date (j + 1) rest ∧
    process_email_sequence parsed_start now0 env =
      Except.ok (processEvents parsed_start now0 env) := by
  refine ⟨rfl, ?_, rfl⟩
  simp only [runFrom]
  rw [if_neg hst, if_neg hguard, hfail]
  simp [send_sequence_email]

/-- C5 witness: concrete failing send at step 1. -/
theorem c5_send_failure_witness :
    ((sendFailEnv 0).send_ok = false ∧ (sendFailEnv 0).status ∉ stop_statuses ∧
      ¬((((1 : Nat) : Int)) ≤ (sendFailEnv 0).last_sent)) ∧
    send_sequence_email false 1 = ([Event.sendAttempt 1], false) :=
  ⟨by decide,
   (c5_send_failure none 0 sendFailEnv 0 0 ⟨1, 1, 63⟩ []
     (by decide) (by decide) (by decide)).1⟩

/-- C6: with a read-after-write consistent store whose writes succeed, no
step is delivered twice for the same instance across any number of
sequential runs: each step number occurs at most once among the successful
deliveries of the concatenated trace. -/
theorem c6_no_duplicate_delivery (sendOK : Nat → Nat → Bool) (nowT : Nat → Nat → Int)
    (sent_date : Int) (k : Nat) (st : Store) (n : Nat) :
    (sentNums (runsFrom sendOK nowT sent_date k st).1).count n ≤ 1 := by
  have hp := runsFrom_pairwise sendOK nowT sent_date k st
  have hnd : (sentNums (runsFrom sendOK nowT sent_date k st).1).Nodup :=
    hp.imp fun h => Nat.ne_of_lt h
  exact List.nodup_iff_count_le_one.mp hnd n

/-- C7: with a read-after-write consistent store, the values written to
`laatste_email` (the recorded `last_step_sent`) are monotonically
non-decreasing in trace order, across any number of sequential runs for the
same instance. -/
theorem c7_monotone_last_step (sendOK : Nat → Nat → Bool) (nowT : Nat → Nat → Int)
    (sent_date : Int) (k : Nat) (st : Store) :
    (lastEmailWrites (runsFrom sendOK nowT sent_date k st).1).Pairwise
      (fun a b => a ≤ b) := by
  rw [lastEmailWrites_eq_sentNums_runsFrom]
  exact (runsFrom_pairwise sendOK nowT sent_date k st).imp fun h => Nat.le_of_lt h

/-- C8: the run writes status "Voltooid" (Completed) exactly when step 8 —
the final step — is delivered successfully; the only status value the run
ever writes is "Voltooid"; and a run whose status check observes a
cancellation at any step position below 8 never writes "Voltooid". -/
theorem c8_completed_iff (parsed_start : Option Int) (now0 : Int)
    (env : Nat → StepEnv) :
    (Event.writeStatus "Voltooid" ∈ processEvents parsed_start now0 env ↔
      Event.sent 8 ∈ processEvents parsed_start now0 env) ∧
    (∀ s, Event.writeStatus s ∈ processEvents parsed_start now0 env →
      s = "Voltooid") ∧
    (∀ i, i < 8 → (env i).status ∈ stop_statuses →
      Event.writeStatus "Voltooid" ∉ processEvents parsed_start now0 env) := by
  have hs := statusWrites_eq_sent8 env
    (match parsed_start with | some d => d | none => now0) EMAIL_SCHEDULE 0
  have hiff : Event.writeStatus "Voltooid" ∈ processEvents parsed_start now0 env ↔
      Event.sent 8 ∈ processEvents parsed_start now0 env := by
    unfold processEvents
    constructor
    · intro h
      rw [← mem_statusWrites, hs] at h
      obtain ⟨m, hm, -⟩ := List.mem_map.mp h
      have hf := List.mem_filter.mp hm
      have h8 : m = 8 := by simpa using hf.2
      exact mem_sentNums.mp (h8 ▸ hf.1)
    · intro h
      rw [← mem_statusWrites, hs]
      exact List.mem_map.mpr ⟨8, List.mem_filter.mpr ⟨mem_sentNums.mpr h, by simp⟩, rfl⟩
  refine ⟨hiff, ?_, ?_⟩
  · intro s hsmem
    unfold processEvents at hsmem
    rw [← mem_statusWrites, hs] at hsmem
    obtain ⟨m, -, heq⟩ := List.mem_map.mp hsmem
    exact heq.symm
  · intro i hi hstop hmem
    have h8 := hiff.mp hmem
    unfold processEvents at h8
    have := numbered_le_of_stop env _ EMAIL_SCHEDULE 0 i (by decide) (Nat.zero_le i)
      hstop _ h8 8 rfl
    omega

/-- C8 witness: a run cancelled at step position 3 never writes
"Voltooid". -/
theorem c8_completed_iff_witness :
    (3 < 8 ∧ (pausedAt3Env 3).status ∈ stop_statuses) ∧
    Event.writeStatus "Voltooid" ∉ processEvents none 0 pausedAt3Env :=
  ⟨by decide, (c8_completed_iff none 0 pausedAt3Env).2.2 3 (by decide) (by decide)⟩

/-- C9: the SMTP connection opened for each delivery carries no
timeout/deadline — `smtplib.SMTP(SMTP_HOST, SMTP_PORT)` is called without
the `timeout` keyword, so a non-responding peer can block a send
indefinitely, contrary to the claim. -/
theorem c9_no_send_timeout (host : String) (port : Nat) :
    (smtp_connection host port).timeout = none := rfl

/-- C10: when the external-store read fails or returns no data,
`get_sequence_status` returns the empty string and `get_last_email_sent`
returns 0; with those read results at an iteration, the loop neither stops
nor skips: it proceeds into the send branch of the step (no abort, no
raise). -/
theorem c10_read_failure_defaults (env : Nat → StepEnv) (sent_date : Int)
    (j : Nat) (e : ScheduleEntry) (rest : List ScheduleEntry)
    (hs : (env j).status = get_sequence_status none)
    (hl : (env j).last_sent = get_last_email_sent none)
    (hnum : 1 ≤ e.email_num) :
    get_sequence_status none = "" ∧
    get_last_email_sent none = 0 ∧
    (∀ d : Deal, d.email_sequence_status = none → get_sequence_status (some d) = "") ∧
    (∀ d : Deal, d.laatste_email = none → get_last_email_sent (some d) = 0) ∧
    runFrom env sent_date j (e :: rest) =
      waitEvents (sent_date + 86400 * (e.day : Int) - (env j).nowTime) ++
        (send_sequence_email (env j).send_ok e.email_num).1 ++
        runFrom env sent_date (j + 1) rest := by
  refine ⟨rfl, rfl, ?_, ?_, ?_⟩
  · intro d hd
    simp [get_sequence_status, hd]
  · intro d hd
    simp [get_last_email_sent, hd, parse_last_email]
  · have hstop : (env j).status ∉ stop_statuses := by
      rw [hs]
      decide
    have hg : ¬((e.email_num : Int) ≤ (env j).last_sent) := by
      rw [hl]
      show ¬((e.email_num : Int) ≤ 0)
      have h1 : (1 : Int) ≤ (e.email_num : Int) := by exact_mod_cast hnum
      omega
    simp only [runFrom]
    rw [if_neg hstop, if_neg hg]

/-- C10 witness: concrete failed-read iteration at step 1. -/
theorem c10_read_failure_defaults_witness :
    ((defaultReadsEnv 0).status = get_sequence_status none ∧
      (defaultReadsEnv 0).last_sent = get_last_email_sent none ∧
      1 ≤ (1 : Nat)) ∧
    get_sequence_status none = "" :=
  ⟨⟨rfl, rfl, by decide⟩,
   (c10_read_failure_defaults defaultReadsEnv 0 0 ⟨1, 1, 63⟩ [] rfl rfl (by decide)).1⟩

end EmailAutomation
